import Mathlib

/-!
Shallow embedding of the go-chip8 CHIP-8 interpreter core
(`internal/chip8`: `chip8.go`, `rom.go`), together with proofs about the
claims of the specification.

Machine bytes are modelled as `Nat` (with explicit `% 256` / `% 65536`
where the Go `uint8` / `uint16` arithmetic wraps), fixed-size Go arrays as
total functions out of `Nat` (the Go code only ever indexes them in
bounds, or panics — panics and `os.Exit` calls are modelled by `Option`:
`none` means the Go process dies).  A single call to `Chip8.Emulate`
(one fetch-decode-execute cycle, called `step` by the spec) is `step`.
The `rand` argument is the oracle for the one random byte `CXNN` draws.
-/

namespace GoChip8

/-- Pointwise update of a function, modelling a Go array element assignment
`arr[i] = v`. -/
def setF {α : Type} (f : Nat → α) (i : Nat) (v : α) : Nat → α :=
  fun j => if j = i then v else f j

/-- Constant `RamSizeBytes` from `chip8.go`. -/
def RamSizeBytes : Nat := 0x1000

/-- Constant `EntryPoint` from `chip8.go`. -/
def EntryPoint : Nat := 0x200

/-- Constant `RomMaxSizeBytes` from `chip8.go` (= 3584). -/
def RomMaxSizeBytes : Nat := RamSizeBytes - EntryPoint

/-- Constant `ScreenWidth` from `chip8.go`. -/
def ScreenWidth : Nat := 64

/-- Constant `ScreenHeight` from `chip8.go`. -/
def ScreenHeight : Nat := 32

/-- Constant `ScreenSize` from `chip8.go`. -/
def ScreenSize : Nat := ScreenWidth * ScreenHeight

/-- Constant `KeyPadSize` from `chip8.go`. -/
def KeyPadSize : Nat := 0x10

/-- Constant `StackMaxSize` from `chip8.go`. -/
def StackMaxSize : Nat := 16

/-- Table `font` from `chip8.go`: the 16 glyphs, 5 bytes each. -/
def font : List Nat :=
  [0xF0, 0x90, 0x90, 0x90, 0xF0,
   0x20, 0x60, 0x20, 0x20, 0x70,
   0xF0, 0x10, 0xF0, 0x80, 0xF0,
   0xF0, 0x10, 0xF0, 0x10, 0xF0,
   0x90, 0x90, 0xF0, 0x10, 0x10,
   0xF0, 0x80, 0xF0, 0x10, 0xF0,
   0xF0, 0x80, 0xF0, 0x90, 0xF0,
   0xF0, 0x10, 0x20, 0x40, 0x40,
   0xF0, 0x90, 0xF0, 0x90, 0xF0,
   0xF0, 0x90, 0xF0, 0x10, 0xF0,
   0xF0, 0x90, 0xF0, 0x90, 0x90,
   0xE0, 0x90, 0xE0, 0x90, 0xE0,
   0xF0, 0x80, 0x80, 0x80, 0xF0,
   0xE0, 0x90, 0x90, 0x90, 0xE0,
   0xF0, 0x80, 0xF0, 0x80, 0xF0,
   0xF0, 0x80, 0xF0, 0x80, 0x80]

/-- Structure `Rom` from `rom.go`. -/
structure Rom where
  name : String
  data : List Nat

/-- Structure `Chip8` from `chip8.go`.  Field names follow the source;
the run-`State` field is omitted (never read or written by `Emulate`). -/
structure Chip8 where
  ram : Nat → Nat
  rom : Rom
  Screen : Nat → Bool
  KeyPad : Nat → Bool
  regsV : Nat → Nat
  regI : Nat
  pc : Nat
  stack : Nat → Nat
  sp : Nat
  delayTimer : Nat
  soundTimer : Nat

/-- Constructor `NewChip8`: zero state except `pc = 0x200` and the font
copied to the bottom of RAM. -/
def newChip8 : Chip8 where
  ram := fun i => font.getD i 0
  rom := { name := "", data := [] }
  Screen := fun _ => false
  KeyPad := fun _ => false
  regsV := fun _ => 0
  regI := 0
  pc := EntryPoint
  stack := fun _ => 0
  sp := 0
  delayTimer := 0
  soundTimer := 0

/-- The pure part of `NewRomFromFile` (`rom.go`): after the file bytes have
been read, the ROM is rejected when it has more than `RomMaxSizeBytes`
bytes, and wrapped into a `Rom` otherwise. -/
def newRomFromData (name : String) (data : List Nat) : Option Rom :=
  if RomMaxSizeBytes < data.length then none
  else some { name := name, data := data }

/-- Method `Chip8.LoadRom`: stores the rom and `copy(c.ram[c.pc:], rom.Data)`
— Go's `copy` writes `min(4096 - pc, len(data))` bytes starting at `pc`. -/
def loadRom (c : Chip8) (rom : Rom) : Chip8 :=
  { c with
    rom := rom
    ram := fun i =>
      if c.pc ≤ i ∧ i < RamSizeBytes ∧ i - c.pc < rom.data.length then
        rom.data.getD (i - c.pc) 0
      else c.ram i }

/-- The load pipeline of `cmd/main.go`: `NewRomFromFile` followed by
`LoadRom`; when the ROM is rejected the process exits before `LoadRom`,
so the machine state is left as it was. -/
def tryLoadRom (c : Chip8) (name : String) (data : List Nat) : Chip8 :=
  match newRomFromData name data with
  | none => c
  | some rom => loadRom c rom

/-- The timer tick at the end of `Emulate` (lines 541–549): each timer
that is positive is decremented. -/
def tickTimers (c : Chip8) : Chip8 :=
  { c with
    delayTimer := if 0 < c.delayTimer then c.delayTimer - 1 else c.delayTimer
    soundTimer := if 0 < c.soundTimer then c.soundTimer - 1 else c.soundTimer }

/-- The inner loop of the `DXYN` case (lines 384–398): draw the 8 bits of
one sprite byte, `j` running from 7 down to 0, the screen column starting
at `col` and incremented after each bit; the loop breaks once the column
leaves the screen.  `b` is the number of bits still to draw (the current
bit index is `b - 1`); the call for a full row uses `b = 8`.
Returns the updated screen and collision flag. -/
def drawBits (sprite row : Nat) : Nat → Nat → (Nat → Bool) → Nat → ((Nat → Bool) × Nat)
  | 0, _, screen, vf => (screen, vf)
  | b + 1, col, screen, vf =>
    let sprPixelOn : Bool := decide (0 < sprite &&& (1 <<< b))
    let posScreen := row * ScreenWidth + col
    let vf' := if sprPixelOn && screen posScreen then 1 else vf
    let screen' := setF screen posScreen (xor (screen posScreen) sprPixelOn)
    if ScreenWidth ≤ col + 1 then (screen', vf')
    else drawBits sprite row b (col + 1) screen' vf'

/-- The outer loop of the `DXYN` case (lines 380–404): `r` rows still to
draw, `i` the current sprite row index, `posY` the current screen row;
the loop breaks once the row leaves the screen.  Reading a sprite byte
from a RAM address `≥ 4096` panics in Go (`none`). -/
def drawRows (ram : Nat → Nat) (regI posX : Nat) :
    Nat → Nat → Nat → (Nat → Bool) → Nat → Option ((Nat → Bool) × Nat)
  | 0, _, _, screen, vf => some (screen, vf)
  | r + 1, i, posY, screen, vf =>
    let addr := (regI + i) % 65536
    if RamSizeBytes ≤ addr then none
    else
      let spriteData := ram addr
      let res := drawBits spriteData posY 8 posX screen vf
      if ScreenHeight ≤ posY + 1 then some res
      else drawRows ram regI posX r (i + 1) (posY + 1) res.fst res.snd

/-- The `FX0A` key scan (lines 448–456): `for i = 0; i < 16; i++` breaking
at the first pressed key; returns the loop variable's final value
(`16` when no key is pressed).  `fuel` is the remaining iteration count. -/
def waitKeyScan (kp : Nat → Bool) : Nat → Nat → Nat
  | 0, i => i
  | fuel + 1, i => if kp i = true then i else waitKeyScan kp fuel (i + 1)

/-- The `FX55` loop: store `regsV 0 .. regsV (cnt-1)` at `regI + offset`;
an out-of-range RAM index panics (`none`). -/
def storeRegs (regsV : Nat → Nat) (regI : Nat) :
    Nat → Nat → (Nat → Nat) → Option (Nat → Nat)
  | 0, _, ram => some ram
  | cnt + 1, i, ram =>
    let addr := (regI + i) % 65536
    if RamSizeBytes ≤ addr then none
    else storeRegs regsV regI cnt (i + 1) (setF ram addr (regsV i))

/-- The `FX65` loop: load `regsV 0 .. regsV (cnt-1)` from `regI + offset`;
an out-of-range RAM index panics (`none`). -/
def loadRegs (ram : Nat → Nat) (regI : Nat) :
    Nat → Nat → (Nat → Nat) → Option (Nat → Nat)
  | 0, _, regsV => some regsV
  | cnt + 1, i, regsV =>
    let addr := (regI + i) % 65536
    if RamSizeBytes ≤ addr then none
    else loadRegs ram regI cnt (i + 1) (setF regsV i (ram addr))

/-- The big opcode dispatch of `Emulate` (lines 154–539), after the fetch,
decode and `pc += 2` steps.  The `Bool` in the result is `true` exactly
for the early `return` of the `FX0A` wait branch (line 461), which skips
the timer tick; `none` models a Go panic or `os.Exit`. -/
def stepExec (c : Chip8) (rand typ nnn nn n x y : Nat) : Option (Chip8 × Bool) :=
  if typ = 0x0 then
    if nn = 0xe0 then some ({ c with Screen := fun _ => false }, false)
    else if nn = 0xee then
      if c.sp = 0 then none
      else some ({ c with sp := c.sp - 1, pc := c.stack (c.sp - 1) }, false)
    else some (c, false)
  else if typ = 0x1 then some ({ c with pc := nnn }, false)
  else if typ = 0x2 then
    if c.sp = StackMaxSize then none
    else some ({ c with stack := setF c.stack c.sp c.pc, sp := c.sp + 1, pc := nnn }, false)
  else if typ = 0x3 then
    some (if c.regsV x = nn then { c with pc := c.pc + 2 } else c, false)
  else if typ = 0x4 then
    some (if c.regsV x ≠ nn then { c with pc := c.pc + 2 } else c, false)
  else if typ = 0x5 then
    if n = 0x0 then
      some (if c.regsV x = c.regsV y then { c with pc := c.pc + 2 } else c, false)
    else some (c, false)
  else if typ = 0x6 then some ({ c with regsV := setF c.regsV x nn }, false)
  else if typ = 0x7 then
    some ({ c with regsV := setF c.regsV x ((c.regsV x + nn) % 256) }, false)
  else if typ = 0x8 then
    if n = 0x0 then some ({ c with regsV := setF c.regsV x (c.regsV y) }, false)
    else if n = 0x1 then
      some ({ c with regsV := setF c.regsV x (c.regsV x ||| c.regsV y) }, false)
    else if n = 0x2 then
      some ({ c with regsV := setF c.regsV x (c.regsV x &&& c.regsV y) }, false)
    else if n = 0x3 then
      some ({ c with regsV := setF c.regsV x (c.regsV x ^^^ c.regsV y) }, false)
    else if n = 0x4 then
      let r1 := setF c.regsV 0xf 0
      let r2 := if 255 - r1 x < r1 y then setF r1 0xf 1 else r1
      some ({ c with regsV := setF r2 x ((r2 x + r2 y) % 256) }, false)
    else if n = 0x5 then
      let r1 := setF c.regsV 0xf 0
      let r2 := if r1 y ≤ r1 x then setF r1 0xf 1 else r1
      some ({ c with regsV := setF r2 x ((r2 x + 256 - r2 y) % 256) }, false)
    else if n = 0x6 then
      let r1 := setF c.regsV 0xf (c.regsV x &&& 0x1)
      some ({ c with regsV := setF r1 x (r1 x >>> 1) }, false)
    else if n = 0x7 then
      let r1 := setF c.regsV 0xf 0
      let r2 := if r1 x ≤ r1 y then setF r1 0xf 1 else r1
      some ({ c with regsV := setF r2 x ((r2 y + 256 - r2 x) % 256) }, false)
    else if n = 0xe then
      let r1 := setF c.regsV 0xf 0
      let r2 := if 0 < r1 x &&& 0x80 then setF r1 0xf 1 else r1
      some ({ c with regsV := setF r2 x ((r2 x <<< 1) % 256) }, false)
    else some (c, false)
  else if typ = 0x9 then
    if n = 0x0 then
      some (if c.regsV x ≠ c.regsV y then { c with pc := c.pc + 2 } else c, false)
    else some (c, false)
  else if typ = 0xa then some ({ c with regI := nnn }, false)
  else if typ = 0xb then some ({ c with pc := (nnn + c.regsV 0) % 65536 }, false)
  else if typ = 0xc then
    some ({ c with regsV := setF c.regsV x ((rand % 256) &&& nn) }, false)
  else if typ = 0xd then
    let posX := c.regsV x &&& (ScreenWidth - 1)
    let posY := c.regsV y &&& (ScreenHeight - 1)
    match drawRows c.ram c.regI posX n 0 posY c.Screen 0 with
    | none => none
    | some res =>
      some ({ c with Screen := res.fst, regsV := setF c.regsV 0xf res.snd }, false)
  else if typ = 0xe then
    if nn = 0x9e then
      some (if c.regsV x < 0x10 ∧ c.KeyPad (c.regsV x) = true
        then { c with pc := c.pc + 2 } else c, false)
    else if nn = 0xa1 then
      some (if c.regsV x < 0x10 ∧ ¬ c.KeyPad (c.regsV x) = true
        then { c with pc := c.pc + 2 } else c, false)
    else some (c, false)
  else if typ = 0xf then
    if nn = 0x07 then some ({ c with regsV := setF c.regsV x c.delayTimer }, false)
    else if nn = 0x0a then
      let i := waitKeyScan c.KeyPad KeyPadSize 0
      if i = KeyPadSize then some ({ c with pc := c.pc - 2 }, true)
      else some ({ c with regsV := setF c.regsV x i }, false)
    else if nn = 0x15 then some ({ c with delayTimer := c.regsV x }, false)
    else if nn = 0x18 then some ({ c with soundTimer := c.regsV x }, false)
    else if nn = 0x1e then
      some ({ c with regI := (c.regI + c.regsV x) % 65536 }, false)
    else if nn = 0x29 then some ({ c with regI := (c.regsV x * 5) % 65536 }, false)
    else if nn = 0x33 then
      let c100 := c.regsV x / 100
      let c10 := (c.regsV x - c100 * 100) / 10
      let c1 := c.regsV x - c100 * 100 - c10 * 10
      let a1 := (c.regI + 1) % 65536
      let a2 := (c.regI + 2) % 65536
      if RamSizeBytes ≤ c.regI ∨ RamSizeBytes ≤ a1 ∨ RamSizeBytes ≤ a2 then none
      else some ({ c with ram := setF (setF (setF c.ram c.regI c100) a1 c10) a2 c1 }, false)
    else if nn = 0x55 then
      match storeRegs c.regsV c.regI (x + 1) 0 c.ram with
      | none => none
      | some ram' => some ({ c with ram := ram' }, false)
    else if nn = 0x65 then
      match loadRegs c.ram c.regI (x + 1) 0 c.regsV with
      | none => none
      | some regs' => some ({ c with regsV := regs' }, false)
    else some (c, false)
  else some (c, false)

/-- Glue between the dispatch and the timer tick: the `FX0A` early
`return` (flag `true`) skips the tick, every other completed instruction
is followed by it; a panic stays a panic. -/
def finishStep : Option (Chip8 × Bool) → Option Chip8
  | none => none
  | some res => if res.snd = true then some res.fst else some (tickTimers res.fst)

/-- One call of `Chip8.Emulate` (minus the wall-clock pacing `defer`,
which touches no machine state).  The early `return` for `pc ≥ 4096`
(lines 136–138) leaves the whole state — timers included — unchanged.
Fetching the second opcode byte at address 4096 panics in Go. -/
def step (c : Chip8) (rand : Nat) : Option Chip8 :=
  if RamSizeBytes ≤ c.pc then some c
  else if RamSizeBytes ≤ c.pc + 1 then none
  else
    let opcode := c.ram c.pc <<< 8 ||| c.ram (c.pc + 1)
    finishStep (stepExec { c with pc := c.pc + 2 } rand
      ((opcode >>> 12) &&& 0x0f) (opcode &&& 0x0fff) (opcode &&& 0x00ff)
      (opcode &&& 0x000f) ((opcode >>> 8) &&& 0x0f) ((opcode >>> 4) &&& 0x0f))

/-- Reading register `i` of a machine, used to observe `step` results. -/
def vReg (i : Nat) (c : Chip8) : Nat := c.regsV i

/-- Pointwise description of the inner sprite-row loop: starting at column
`col`, `b` bits are drawn (most significant first), clipped at column 63;
cell `p` of the result is its old value XORed with the matching sprite
bit when `p` lies in the drawn segment of row `row`, and is untouched
otherwise. -/
def bitsSpec (sprite row b col : Nat) (screen : Nat → Bool) : Nat → Bool :=
  fun p =>
    if row * 64 + col ≤ p ∧ p < row * 64 + col + b ∧ p ≤ row * 64 + 63 then
      xor (screen p) (decide (0 < sprite &&& 1 <<< (b - 1 - (p - (row * 64 + col)))))
    else screen p

/-- Pointwise description of the whole `DXYN` draw loop: `r` sprite rows
drawn from screen row `posY` downwards (sprite bytes read from
`ram (regI + i ..)`), clipped at row 31 and column 63. -/
def rowsSpec (ram : Nat → Nat) (regI posX i posY r : Nat) (screen : Nat → Bool) : Nat → Bool :=
  fun p =>
    if posY ≤ p / 64 ∧ p / 64 < posY + r ∧ p / 64 ≤ 31 ∧
        posX ≤ p % 64 ∧ p % 64 < posX + 8 then
      xor (screen p)
        (decide (0 < ram ((regI + (i + (p / 64 - posY))) % 65536) &&&
          1 <<< (7 - (p % 64 - posX))))
    else screen p

/-- A convenient all-zero machine with `pc = 0x200`, used as the base of
the concrete machines in witnesses and counterexamples. -/
def cexBase : Chip8 where
  ram := fun _ => 0
  rom := { name := "", data := [] }
  Screen := fun _ => false
  KeyPad := fun _ => false
  regsV := fun _ => 0
  regI := 0
  pc := 512
  stack := fun _ => 0
  sp := 0
  delayTimer := 0
  soundTimer := 0

/-- Machine about to run `8xy4` with `x = 0`, `y = 0xF`, `V0 = 5`,
`VF = 1`. -/
def c1cex : Chip8 :=
  { cexBase with
    ram := setF (setF (fun _ => 0) 512 0x80) 513 0xF4
    regsV := setF (setF (fun _ => 0) 0 5) 15 1 }

/-- Machine about to run `8xy4` with `x = 0`, `y = 1`, `V0 = 200`,
`V1 = 100`. -/
def c1wit : Chip8 :=
  { cexBase with
    ram := setF (setF (fun _ => 0) 512 0x80) 513 0x14
    regsV := setF (setF (fun _ => 0) 0 200) 1 100 }

/-- Machine about to run `8xy5` with `x = 0`, `y = 0xF`, `V0 = 5`,
`VF = 0`. -/
def c2cex : Chip8 :=
  { cexBase with
    ram := setF (setF (fun _ => 0) 512 0x80) 513 0xF5
    regsV := setF (fun _ => 0) 0 5 }

/-- Machine about to run `8xy5` with `x = 0`, `y = 1`, `V0 = 5`,
`V1 = 20`. -/
def c2wit : Chip8 :=
  { cexBase with
    ram := setF (setF (fun _ => 0) 512 0x80) 513 0x15
    regsV := setF (setF (fun _ => 0) 0 5) 1 20 }

/-- A ROM image of 3585 bytes, one byte over the limit. -/
def bigData : List Nat := List.replicate 3585 0

/-- Machine waiting on `FX0A` with no key pressed and both timers at 1. -/
def c4cex : Chip8 :=
  { cexBase with
    ram := setF (setF (fun _ => 0) 512 0xF0) 513 0x0A
    delayTimer := 1
    soundTimer := 1 }

/-- Machine whose `pc` has run past the top of memory, both timers at 1. -/
def c5cex : Chip8 := { cexBase with pc := 4096, delayTimer := 1, soundTimer := 1 }

/-- Machine about to run `2nnn` (call 0x300) with `00EE` placed at 0x300. -/
def c7wit : Chip8 :=
  { cexBase with
    ram := setF (setF (setF (setF (fun _ => 0) 512 0x23) 513 0x00) 768 0x00) 769 0xEE }

/-- The machine after the call instruction of `c7wit`. -/
def c7mid : Chip8 :=
  match step c7wit 0 with
  | some c => c
  | none => c7wit

/-- The machine after the return instruction following `c7mid`. -/
def c7end : Chip8 :=
  match step c7mid 0 with
  | some c => c
  | none => c7mid

/-- Machine about to run `D013` with `V0 = 60`, `V1 = 30` and an `0xFF`
sprite byte at `I = 0`:  the draw clips at both screen edges. -/
def c8wit : Chip8 :=
  { cexBase with
    ram := setF (setF (setF (fun _ => 0) 512 0xD0) 513 0x13) 0 0xFF
    regsV := setF (setF (fun _ => 0) 0 60) 1 30 }

/-- The machine after the clipped draw of `c8wit`. -/
def c8end : Chip8 :=
  match step c8wit 0 with
  | some c => c
  | none => c8wit

/-- The all-false framebuffer. -/
def blankScreen : Nat → Bool := fun _ => false

/-- RAM holding a single `0xFF` sprite byte at address 0. -/
def c9ram : Nat → Nat := setF (fun _ => 0) 0 0xFF

/-- First clipped draw of the `c9ram` sprite at `(60, 30)`. -/
def c9out1 : (Nat → Bool) × Nat :=
  match drawRows c9ram 0 (60 % 64) 3 0 (30 % 32) blankScreen 0 with
  | some out => out
  | none => (blankScreen, 0)

/-- Second identical draw, on top of the result of the first. -/
def c9out2 : (Nat → Bool) × Nat :=
  match drawRows c9ram 0 (60 % 64) 3 0 (30 % 32) c9out1.fst 0 with
  | some out => out
  | none => (blankScreen, 0)

/-- Machine about to run `EX9E` with `x = 0` and `V0 = 200 ≥ 16`. -/
def c10wit : Chip8 :=
  { cexBase with
    ram := setF (setF (fun _ => 0) 512 0xE0) 513 0x9E
    regsV := fun _ => 200 }

/-! ### Basic lemmas about `setF` and the decode arithmetic

The fetch builds `opcode = hi <<< 8 ||| lo` from two RAM bytes and the
decode extracts nibble fields with shifts and masks; the lemmas below
express those bit operations as plain `/`, `%` and `+` arithmetic so that
`omega` can work with them. -/

theorem setF_self {A : Type} (f : Nat → A) (i : Nat) (v : A) : setF f i v i = v := by
  simp [setF]

theorem setF_other {A : Type} (f : Nat → A) (i j : Nat) (v : A) (h : j ≠ i) :
    setF f i v j = f j := by
  simp [setF, h]

theorem and_mask15 (m : Nat) : m &&& 15 = m % 16 := by
  have h := Nat.and_pow_two_sub_one_eq_mod m 4
  norm_num at h
  exact h

theorem and_mask255 (m : Nat) : m &&& 255 = m % 256 := by
  have h := Nat.and_pow_two_sub_one_eq_mod m 8
  norm_num at h
  exact h

theorem and_mask4095 (m : Nat) : m &&& 4095 = m % 4096 := by
  have h := Nat.and_pow_two_sub_one_eq_mod m 12
  norm_num at h
  exact h

theorem and_mask63 (m : Nat) : m &&& 63 = m % 64 := by
  have h := Nat.and_pow_two_sub_one_eq_mod m 6
  norm_num at h
  exact h

theorem and_mask31 (m : Nat) : m &&& 31 = m % 32 := by
  have h := Nat.and_pow_two_sub_one_eq_mod m 5
  norm_num at h
  exact h

theorem byte_or (hi lo : Nat) (hlo : lo < 256) : hi <<< 8 ||| lo = hi * 256 + lo := by
  have h2 : lo < 2 ^ 8 := by norm_num; omega
  calc hi <<< 8 ||| lo = 2 ^ 8 * hi ||| lo := by rw [Nat.shiftLeft_eq, Nat.mul_comm]
    _ = 2 ^ 8 * hi + lo := (Nat.mul_add_lt_is_or h2 hi).symm
    _ = hi * 256 + lo := by ring

theorem shr_pow (m k : Nat) : m >>> k = m / 2 ^ k := Nat.shiftRight_eq_div_pow m k

theorem decode_typ (hi lo : Nat) (hhi : hi < 256) (hlo : lo < 256) :
    ((hi <<< 8 ||| lo) >>> 12) &&& 15 = hi / 16 := by
  rw [byte_or hi lo hlo, shr_pow, and_mask15]
  norm_num
  omega

theorem decode_nnn (hi lo : Nat) (hlo : lo < 256) :
    (hi <<< 8 ||| lo) &&& 4095 = (hi % 16) * 256 + lo := by
  rw [byte_or hi lo hlo, and_mask4095]
  omega

theorem decode_nn (hi lo : Nat) (hlo : lo < 256) :
    (hi <<< 8 ||| lo) &&& 255 = lo := by
  rw [byte_or hi lo hlo, and_mask255]
  omega

theorem decode_n (hi lo : Nat) (hlo : lo < 256) :
    (hi <<< 8 ||| lo) &&& 15 = lo % 16 := by
  rw [byte_or hi lo hlo, and_mask15]
  omega

theorem decode_x (hi lo : Nat) (hlo : lo < 256) :
    ((hi <<< 8 ||| lo) >>> 8) &&& 15 = hi % 16 := by
  rw [byte_or hi lo hlo, shr_pow, and_mask15]
  norm_num
  omega

theorem decode_y (hi lo : Nat) (hlo : lo < 256) :
    ((hi <<< 8 ||| lo) >>> 4) &&& 15 = lo / 16 := by
  rw [byte_or hi lo hlo, shr_pow, and_mask15]
  norm_num
  omega

/-- Bridge: for a machine whose program counter is fetchable and whose two
instruction bytes are `hi` and `lo`, one `step` is the dispatch applied to
the arithmetically decoded fields (after the `pc += 2` pre-increment). -/
theorem step_decode (c : Chip8) (rand hi lo : Nat) (hpc : c.pc + 1 < 4096)
    (hh : c.ram c.pc = hi) (hl : c.ram (c.pc + 1) = lo)
    (hhi : hi < 256) (hlo : lo < 256) :
    step c rand = finishStep (stepExec { c with pc := c.pc + 2 } rand
      (hi / 16) ((hi % 16) * 256 + lo) lo (lo % 16) (hi % 16) (lo / 16)) := by
  rw [step, RamSizeBytes]
  rw [if_neg (by omega), if_neg (by omega)]
  simp only [hh, hl, decode_typ hi lo hhi hlo, decode_nnn hi lo hlo, decode_nn hi lo hlo,
    decode_n hi lo hlo, decode_x hi lo hlo, decode_y hi lo hlo]

/-- The `FX0A` scan returns `i + fuel` (that is, runs the loop to its end)
when none of the scanned keys is pressed. -/
theorem waitKeyScan_none (kp : Nat → Bool) :
    ∀ fuel i, (∀ j, i ≤ j → j < i + fuel → kp j = false) →
      waitKeyScan kp fuel i = i + fuel := by
  intro fuel
  induction fuel with
  | zero => intro i _; simp [waitKeyScan]
  | succ f ih =>
    intro i h
    have h0 : kp i = false := h i (le_refl i) (by omega)
    simp only [waitKeyScan, h0]
    norm_num
    rw [ih (i + 1) (fun j h1 h2 => h j (by omega) (by omega))]
    omega

/-- An `FX0A` step with no key pressed leaves the machine completely
unchanged: the `pc += 2` is undone by the rewind and the early `return`
skips the timer tick. -/
theorem fx0a_wait (c : Chip8) (rand x : Nat) (hpc : c.pc + 1 < 4096) (hx : x < 16)
    (hh : c.ram c.pc = 240 + x) (hl : c.ram (c.pc + 1) = 10)
    (hkeys : ∀ i, i < 16 → c.KeyPad i = false) :
    step c rand = some c := by
  rw [step_decode c rand (240 + x) 10 hpc hh hl (by omega) (by omega)]
  have e1 : (240 + x) / 16 = 15 := by omega
  have e2 : (240 + x) % 16 = x := by omega
  rw [e1, e2]
  have hscan : waitKeyScan c.KeyPad 16 0 = 16 := by
    have h := waitKeyScan_none c.KeyPad 16 0 (fun j h1 h2 => hkeys j (by omega))
    simpa using h
  norm_num [stepExec, KeyPadSize, hscan]
  have hpc2 : c.pc + 2 - 2 = c.pc := by omega
  rw [finishStep]
  norm_num [hpc2]

/-- The inner sprite loop computes exactly its pointwise description
`bitsSpec` (on the screen component). -/
theorem drawBits_fst (sprite row : Nat) :
    ∀ (b col : Nat) (screen : Nat → Bool) (vf : Nat), col ≤ 63 →
      (drawBits sprite row b col screen vf).fst = bitsSpec sprite row b col screen := by
  intro b
  induction b with
  | zero =>
    intro col screen vf hcol
    funext p
    simp only [drawBits, bitsSpec]
    rw [if_neg (by omega)]
  | succ b ih =>
    intro col screen vf hcol
    simp only [drawBits, ScreenWidth]
    by_cases h64 : 64 ≤ col + 1
    · rw [if_pos h64]
      have hc : col = 63 := by omega
      subst hc
      funext p
      simp only [bitsSpec]
      by_cases hp : p = row * 64 + 63
      · subst hp
        rw [setF_self, if_pos (by omega)]
        have hidx : b + 1 - 1 - (row * 64 + 63 - (row * 64 + 63)) = b := by omega
        rw [hidx]
      · rw [setF_other _ _ _ _ hp, if_neg (by omega)]
    · rw [if_neg h64]
      rw [ih (col + 1) _ _ (by omega)]
      funext p
      simp only [bitsSpec]
      by_cases hp : p = row * 64 + col
      · subst hp
        rw [if_neg (by omega), setF_self, if_pos (by omega)]
        have hidx : b + 1 - 1 - (row * 64 + col - (row * 64 + col)) = b := by omega
        rw [hidx]
      · by_cases hin : row * 64 + (col + 1) ≤ p ∧ p < row * 64 + (col + 1) + b ∧
            p ≤ row * 64 + 63
        · rw [if_pos hin, setF_other _ _ _ _ hp, if_pos (by omega)]
          have hidx : b - 1 - (p - (row * 64 + (col + 1))) =
              b + 1 - 1 - (p - (row * 64 + col)) := by omega
          rw [hidx]
        · rw [if_neg hin, setF_other _ _ _ _ hp, if_neg (by omega)]

/-- The outer sprite loop computes exactly its pointwise description
`rowsSpec` (on the screen component) whenever it completes without a
panic. -/
theorem drawRows_fst (ram : Nat → Nat) (regI posX : Nat) (hpx : posX ≤ 63) :
    ∀ (r i posY : Nat) (screen : Nat → Bool) (vf : Nat) (out : (Nat → Bool) × Nat),
      posY ≤ 31 →
      drawRows ram regI posX r i posY screen vf = some out →
      out.fst = rowsSpec ram regI posX i posY r screen := by
  intro r
  induction r with
  | zero =>
    intro i posY screen vf out hpy h
    simp only [drawRows, Option.some.injEq] at h
    subst h
    funext p
    simp only [rowsSpec]
    rw [if_neg (by omega)]
  | succ r ih =>
    intro i posY screen vf out hpy h
    simp only [drawRows, RamSizeBytes, ScreenHeight] at h
    by_cases haddr : 4096 ≤ (regI + i) % 65536
    · rw [if_pos haddr] at h
      simp at h
    · rw [if_neg haddr] at h
      generalize hdb : drawBits (ram ((regI + i) % 65536)) posY 8 posX screen vf = res at h
      have hfst : res.fst = bitsSpec (ram ((regI + i) % 65536)) posY 8 posX screen := by
        rw [← hdb]
        exact drawBits_fst _ _ 8 posX screen vf hpx
      by_cases h32 : 32 ≤ posY + 1
      · rw [if_pos h32] at h
        simp only [Option.some.injEq] at h
        subst h
        have hpy31 : posY = 31 := by omega
        subst hpy31
        rw [hfst]
        funext p
        simp only [bitsSpec, rowsSpec]
        by_cases hmem : 31 * 64 + posX ≤ p ∧ p < 31 * 64 + posX + 8 ∧ p ≤ 31 * 64 + 63
        · rw [if_pos hmem, if_pos (by omega)]
          have hidx : 7 - (p % 64 - posX) = 8 - 1 - (p - (31 * 64 + posX)) := by omega
          have hrow : i + (p / 64 - 31) = i := by omega
          rw [hidx, hrow]
        · rw [if_neg hmem, if_neg (by omega)]
      · rw [if_neg h32] at h
        have hrec := ih (i + 1) (posY + 1) res.fst res.snd out (by omega) h
        rw [hrec, hfst]
        funext p
        simp only [rowsSpec, bitsSpec]
        by_cases hrow0 : p / 64 = posY ∧ posX ≤ p % 64 ∧ p % 64 < posX + 8
        · rw [if_neg (by omega), if_pos (by omega), if_pos (by omega)]
          have hidx : 8 - 1 - (p - (posY * 64 + posX)) = 7 - (p % 64 - posX) := by omega
          have hrowi : i + (p / 64 - posY) = i := by omega
          rw [hidx, hrowi]
        · by_cases hrest : posY + 1 ≤ p / 64 ∧ p / 64 < posY + 1 + r ∧ p / 64 ≤ 31 ∧
              posX ≤ p % 64 ∧ p % 64 < posX + 8
          · rw [if_pos hrest, if_neg (by omega), if_pos (by omega)]
            have hri : i + 1 + (p / 64 - (posY + 1)) = i + (p / 64 - posY) := by omega
            rw [hri]
          · rw [if_neg hrest, if_neg (by omega), if_neg (by omega)]

/-! ### Claim theorems -/

/-- Claim C1, counterexample.  With `x = 0`, `y = 0xF`, `V0 = 5` and
`VF = 1`, the claim demands `V0 = (5 + 1) % 256 = 6` after `8xy4`; the
code leaves `V0 = 5`, because it zeroes `VF` before reading the addend
`Vy = VF`. -/
theorem c1_add_carry_counterexample :
    Option.map (vReg 0) (step c1cex 0) = some 5 ∧
    ¬ Option.map (vReg 0) (step c1cex 0) = some 6 := by
  decide

/-- Claim C1 (amended): for register indices `x ≠ 0xF` and `y ≠ 0xF` and
8-bit values `a = Vx`, `b = Vy`, executing `8xy4` sets `VF` to 1 iff
`a + b > 255` and leaves `Vx = (a + b) % 256`.  (As stated, with
`x = 0xF` or `y = 0xF` allowed, the claim is false: the flag write
happens before the operands are re-read.) -/
theorem c1_add_carry_amended (c : Chip8) (rand x y a b : Nat)
    (hpc : c.pc + 1 < 4096)
    (hx : x < 16) (hy : y < 16) (hx15 : x ≠ 15) (hy15 : y ≠ 15)
    (hh : c.ram c.pc = 128 + x) (hl : c.ram (c.pc + 1) = y * 16 + 4)
    (ha : c.regsV x = a) (hb : c.regsV y = b) (ha2 : a < 256) (hb2 : b < 256) :
    Option.map (vReg 15) (step c rand) = some (if 255 < a + b then 1 else 0) ∧
    Option.map (vReg x) (step c rand) = some ((a + b) % 256) := by
  rw [step_decode c rand (128 + x) (y * 16 + 4) hpc hh hl (by omega) (by omega)]
  have e1 : (128 + x) / 16 = 8 := by omega
  have e2 : (128 + x) % 16 = x := by omega
  have e3 : (y * 16 + 4) % 16 = 4 := by omega
  have e4 : (y * 16 + 4) / 16 = y := by omega
  rw [e1, e2, e3, e4]
  norm_num [stepExec]
  have hr1x : setF c.regsV 15 0 x = a := by
    simp only [setF, if_neg hx15, ha]
  have hr1y : setF c.regsV 15 0 y = b := by
    simp only [setF, if_neg hy15, hb]
  rw [hr1x, hr1y]
  by_cases hov : 255 - a < b
  · simp only [if_pos hov]
    have h2x : setF (setF c.regsV 15 0) 15 1 x = a := by
      simp only [setF, if_neg hx15, ha]
    have h2y : setF (setF c.regsV 15 0) 15 1 y = b := by
      simp only [setF, if_neg hy15, hb]
    rw [h2x, h2y]
    simp only [finishStep, tickTimers, vReg]
    norm_num
    constructor
    · rw [setF_other _ _ _ _ (fun h => hx15 h.symm), setF_self, if_pos (by omega)]
    · rw [setF_self]
  · simp only [if_neg hov]
    rw [hr1x, hr1y]
    simp only [finishStep, tickTimers, vReg]
    norm_num
    constructor
    · rw [setF_other _ _ _ _ (fun h => hx15 h.symm), setF_self, if_neg (by omega)]
    · rw [setF_self]

/-- Claim C1, witness: the amended theorem evaluated on `8014` with
`V0 = 200`, `V1 = 100`. -/
theorem c1_add_carry_witness :
    Option.map (vReg 15) (step c1wit 0) = some (if 255 < 200 + 100 then 1 else 0) ∧
    Option.map (vReg 0) (step c1wit 0) = some ((200 + 100) % 256) :=
  c1_add_carry_amended c1wit 0 0 1 200 100 (by decide) (by decide) (by decide) (by decide)
    (by decide) (by decide) (by decide) (by decide) (by decide) (by decide) (by decide)

/-- Claim C2, counterexample.  With `x = 0`, `y = 0xF`, `V0 = 5` and
`VF = 0`, the claim demands `V0 = (5 - 0) % 256 = 5` after `8xy5`; the
code leaves `V0 = 4`, because it writes the no-borrow flag into `VF`
before reading the subtrahend `Vy = VF`. -/
theorem c2_sub_noborrow_counterexample :
    Option.map (vReg 0) (step c2cex 0) = some 4 ∧
    ¬ Option.map (vReg 0) (step c2cex 0) = some 5 := by
  decide

/-- Claim C2 (amended): for register indices `x ≠ 0xF` and `y ≠ 0xF` and
8-bit values `a = Vx`, `b = Vy`, executing `8xy5` sets `VF` to 1 iff
`a ≥ b` and leaves `Vx = (a - b) % 256` (written `(a + 256 - b) % 256` on
naturals).  (As stated, with `x = 0xF` or `y = 0xF` allowed, the claim is
false: the flag write happens before the operands are re-read.) -/
theorem c2_sub_noborrow_amended (c : Chip8) (rand x y a b : Nat)
    (hpc : c.pc + 1 < 4096)
    (hx : x < 16) (hy : y < 16) (hx15 : x ≠ 15) (hy15 : y ≠ 15)
    (hh : c.ram c.pc = 128 + x) (hl : c.ram (c.pc + 1) = y * 16 + 5)
    (ha : c.regsV x = a) (hb : c.regsV y = b) (ha2 : a < 256) (hb2 : b < 256) :
    Option.map (vReg 15) (step c rand) = some (if b ≤ a then 1 else 0) ∧
    Option.map (vReg x) (step c rand) = some ((a + 256 - b) % 256) := by
  rw [step_decode c rand (128 + x) (y * 16 + 5) hpc hh hl (by omega) (by omega)]
  have e1 : (128 + x) / 16 = 8 := by omega
  have e2 : (128 + x) % 16 = x := by omega
  have e3 : (y * 16 + 5) % 16 = 5 := by omega
  have e4 : (y * 16 + 5) / 16 = y := by omega
  rw [e1, e2, e3, e4]
  norm_num [stepExec]
  have hr1x : setF c.regsV 15 0 x = a := by
    simp only [setF, if_neg hx15, ha]
  have hr1y : setF c.regsV 15 0 y = b := by
    simp only [setF, if_neg hy15, hb]
  rw [hr1x, hr1y]
  by_cases hge : b ≤ a
  · simp only [if_pos hge]
    have h2x : setF (setF c.regsV 15 0) 15 1 x = a := by
      simp only [setF, if_neg hx15, ha]
    have h2y : setF (setF c.regsV 15 0) 15 1 y = b := by
      simp only [setF, if_neg hy15, hb]
    rw [h2x, h2y]
    simp only [finishStep, tickTimers, vReg]
    norm_num
    constructor
    · rw [setF_other _ _ _ _ (fun h => hx15 h.symm), setF_self]
    · rw [setF_self]
  · simp only [if_neg hge]
    rw [hr1x, hr1y]
    simp only [finishStep, tickTimers, vReg]
    norm_num
    constructor
    · rw [setF_other _ _ _ _ (fun h => hx15 h.symm), setF_self]
    · rw [setF_self]

/-- Claim C2, witness: the amended theorem evaluated on `8015` with
`V0 = 5`, `V1 = 20`. -/
theorem c2_sub_noborrow_witness :
    Option.map (vReg 15) (step c2wit 0) = some (if 20 ≤ 5 then 1 else 0) ∧
    Option.map (vReg 0) (step c2wit 0) = some ((5 + 256 - 20) % 256) :=
  c2_sub_noborrow_amended c2wit 0 0 1 5 20 (by decide) (by decide) (by decide) (by decide)
    (by decide) (by decide) (by decide) (by decide) (by decide) (by decide) (by decide)

/-- Claim C3: a ROM longer than 3584 bytes is rejected (`NewRomFromFile`
returns an error before `LoadRom` can run), so the machine keeps its
pre-load state; a freshly created machine has `pc = 0x200` and all
registers zero. -/
theorem c3_oversized_rom_rejected (c : Chip8) (name : String) (data : List Nat)
    (h : 3584 < data.length) :
    tryLoadRom c name data = c ∧ newRomFromData name data = none ∧
    newChip8.pc = 0x200 ∧ ∀ i, newChip8.regsV i = 0 := by
  have hr : newRomFromData name data = none := by
    rw [newRomFromData, if_pos]
    rw [RomMaxSizeBytes, RamSizeBytes, EntryPoint]
    omega
  refine ⟨?_, hr, rfl, fun i => rfl⟩
  rw [tryLoadRom, hr]

/-- Claim C3, witness: loading a 3585-byte ROM into a fresh machine is
rejected and the machine is unchanged. -/
theorem c3_oversized_rom_witness :
    tryLoadRom newChip8 "r" bigData = newChip8 ∧ newChip8.pc = 0x200 ∧
    vReg 0 newChip8 = 0 := by
  have h := c3_oversized_rom_rejected newChip8 "r" bigData
    (by rw [bigData, List.length_replicate]; norm_num)
  exact ⟨h.1, h.2.2.1, h.2.2.2 0⟩

/-- Claim C4, counterexample.  A machine waiting on `FX0A` with no key
pressed and `delayTimer = 1`: the claim demands the timer be decremented
to 0 on that call, but the early `return` of the wait branch skips the
timer tick, so the timer stays 1 (indeed the whole state is unchanged). -/
theorem c4_wait_timers_counterexample :
    step c4cex 0 = some c4cex ∧
    Option.map Chip8.delayTimer (step c4cex 0) = some 1 ∧
    ¬ Option.map Chip8.delayTimer (step c4cex 0) = some 0 := by
  refine ⟨?_, by decide, by decide⟩
  exact fx0a_wait c4cex 0 0 (by decide) (by decide) (by decide) (by decide)
    (fun i _ => rfl)

/-- Claim C4 (amended): when the instruction at `pc` is `Fx0A` and no
keypad key is pressed, that `step()` call performs NO timer tick — the
early `return` skips it, so both timers are unchanged while waiting.
(The claim as stated, that the timers still decrement each waiting call,
is false.) -/
theorem c4_wait_timers_amended (c : Chip8) (rand x : Nat) (hpc : c.pc + 1 < 4096)
    (hx : x < 16) (hh : c.ram c.pc = 240 + x) (hl : c.ram (c.pc + 1) = 10)
    (hkeys : ∀ i, i < 16 → c.KeyPad i = false) :
    Option.map Chip8.delayTimer (step c rand) = some c.delayTimer ∧
    Option.map Chip8.soundTimer (step c rand) = some c.soundTimer := by
  rw [fx0a_wait c rand x hpc hx hh hl hkeys]
  exact ⟨rfl, rfl⟩

/-- Claim C4, witness: the amended theorem on the concrete waiting
machine. -/
theorem c4_wait_timers_witness :
    Option.map Chip8.delayTimer (step c4cex 0) = some c4cex.delayTimer ∧
    Option.map Chip8.soundTimer (step c4cex 0) = some c4cex.soundTimer :=
  c4_wait_timers_amended c4cex 0 0 (by decide) (by decide) (by decide) (by decide)
    (fun i _ => rfl)

/-- Claim C5, counterexample.  A machine with `pc = 4096` and
`delayTimer = 1`: the claim demands the timer tick still apply (timer
decremented to 0), but the early `return` at the top of `Emulate` skips
everything, so the timer stays 1. -/
theorem c5_halted_counterexample :
    Option.map Chip8.delayTimer (step c5cex 0) = some 1 ∧
    ¬ Option.map Chip8.delayTimer (step c5cex 0) = some 0 := by
  decide

/-- Claim C5 (amended): for `pc ≥ 4096` a `step()` call executes no
instruction and changes nothing at all — the early `return` also skips
the timer tick, so the timers are NOT decremented.  (The claim as
stated, that the timer tick still applies, is false.) -/
theorem c5_halted_amended (c : Chip8) (rand : Nat) (h : 4096 ≤ c.pc) :
    step c rand = some c := by
  rw [step, if_pos (show RamSizeBytes ≤ c.pc by rw [RamSizeBytes]; omega)]

/-- Claim C5, witness: the amended theorem on the concrete halted
machine. -/
theorem c5_halted_witness : step c5cex 0 = some c5cex :=
  c5_halted_amended c5cex 0 (by decide)

/-- Claim C6: when the instruction at `pc` is `Fx0A` and no key is
pressed, the `pc += 2` pre-increment is undone by a rewind of exactly 2,
so after the call `pc` equals its pre-call value and the same instruction
is re-fetched next call. -/
theorem c6_wait_pc_unchanged (c : Chip8) (rand x : Nat) (hpc : c.pc + 1 < 4096)
    (hx : x < 16) (hh : c.ram c.pc = 240 + x) (hl : c.ram (c.pc + 1) = 10)
    (hkeys : ∀ i, i < 16 → c.KeyPad i = false) :
    Option.map Chip8.pc (step c rand) = some c.pc := by
  rw [fx0a_wait c rand x hpc hx hh hl hkeys]
  rfl

/-- Claim C6, witness: the theorem on the concrete waiting machine. -/
theorem c6_wait_pc_witness : Option.map Chip8.pc (step c4cex 0) = some c4cex.pc :=
  c6_wait_pc_unchanged c4cex 0 0 (by decide) (by decide) (by decide) (by decide)
    (fun i _ => rfl)

/-- Claim C7: with `sp < 16`, executing a `2nnn` call and then the `00EE`
placed at the call target returns `pc` to the address right after the
call instruction (call site + 2) and restores `sp` to its pre-call
value. -/
theorem c7_call_ret_roundtrip (c : Chip8) (r1 r2 : Nat) (hi lo : Nat)
    (hpc : c.pc + 1 < 4096) (hhi : hi < 16) (hlo : lo < 256)
    (hh : c.ram c.pc = 32 + hi) (hl : c.ram (c.pc + 1) = lo)
    (hsp : c.sp < 16)
    (htar : hi * 256 + lo + 1 < 4096)
    (hr0 : c.ram (hi * 256 + lo) = 0) (hre : c.ram (hi * 256 + lo + 1) = 0xEE)
    (c1 c2 : Chip8) (h1 : step c r1 = some c1) (h2 : step c1 r2 = some c2) :
    c2.pc = c.pc + 2 ∧ c2.sp = c.sp := by
  rw [step_decode c r1 (32 + hi) lo hpc hh hl (by omega) hlo] at h1
  have e1 : (32 + hi) / 16 = 2 := by omega
  have e2 : (32 + hi) % 16 = hi := by omega
  rw [e1, e2] at h1
  norm_num [stepExec, StackMaxSize] at h1
  rw [if_neg (show ¬ c.sp = 16 by omega)] at h1
  simp only [finishStep] at h1
  norm_num at h1
  have hc1pc : c1.pc = hi * 256 + lo := by rw [← h1]; rfl
  have hc1ram : c1.ram = c.ram := by rw [← h1]; rfl
  have hc1sp : c1.sp = c.sp + 1 := by rw [← h1]; rfl
  have hc1stack : c1.stack = setF c.stack c.sp (c.pc + 2) := by rw [← h1]; rfl
  rw [step_decode c1 r2 0 0xEE (by omega) (by rw [hc1ram, hc1pc]; exact hr0)
    (by rw [hc1ram, hc1pc]; exact hre) (by omega) (by omega)] at h2
  norm_num [stepExec] at h2
  rw [if_neg (show ¬ c1.sp = 0 by omega)] at h2
  simp only [finishStep] at h2
  norm_num at h2
  rw [← h2]
  constructor
  · show c1.stack (c1.sp - 1) = c.pc + 2
    rw [hc1stack, hc1sp, Nat.add_sub_cancel, setF_self]
  · show c1.sp - 1 = c.sp
    omega

/-- Claim C7, witness: the concrete machine `c7wit` calls `0x300` from
`0x200` and returns; `pc` ends at `0x202` and `sp` back at 0. -/
theorem c7_call_ret_witness : c7end.pc = c7wit.pc + 2 ∧ c7end.sp = c7wit.sp :=
  c7_call_ret_roundtrip c7wit 0 0 3 0 (by decide) (by decide) (by decide) (by decide)
    (by decide) (by decide) (by decide) (by decide) (by decide) c7mid c7end rfl rfl

/-- Claim C8: a `Dxyn` draw starts at `(Vx mod 64, Vy mod 32)` and every
framebuffer cell it changes lies inside the clipped sprite rectangle:
its column (`p % 64`) within 8 columns of the origin, its row (`p / 64`)
within `n` rows of the origin and at most 31, and its index below 2048 —
bits that would fall past column 63 or row 31 are dropped, never written
elsewhere. -/
theorem c8_draw_clipping (c : Chip8) (rand x y n : Nat) (hpc : c.pc + 1 < 4096)
    (hx : x < 16) (hy : y < 16) (hn : n < 16)
    (hh : c.ram c.pc = 208 + x) (hl : c.ram (c.pc + 1) = y * 16 + n)
    (c2 : Chip8) (hstep : step c rand = some c2) :
    ∀ p, c2.Screen p ≠ c.Screen p →
      c.regsV x % 64 ≤ p % 64 ∧ p % 64 < c.regsV x % 64 + 8 ∧
      c.regsV y % 32 ≤ p / 64 ∧ p / 64 < c.regsV y % 32 + n ∧
      p / 64 ≤ 31 ∧ p < 2048 := by
  rw [step_decode c rand (208 + x) (y * 16 + n) hpc hh hl (by omega) (by omega)] at hstep
  have e1 : (208 + x) / 16 = 13 := by omega
  have e2 : (208 + x) % 16 = x := by omega
  have e3 : (y * 16 + n) % 16 = n := by omega
  have e4 : (y * 16 + n) / 16 = y := by omega
  rw [e1, e2, e3, e4] at hstep
  norm_num [stepExec, ScreenWidth, ScreenHeight] at hstep
  rw [and_mask63, and_mask31] at hstep
  cases hdraw : drawRows c.ram c.regI (c.regsV x % 64) n 0 (c.regsV y % 32) c.Screen 0 with
  | none =>
    rw [hdraw] at hstep
    simp [finishStep] at hstep
  | some res =>
    rw [hdraw] at hstep
    simp only [finishStep] at hstep
    norm_num at hstep
    have hscr : c2.Screen = res.fst := by rw [← hstep]; rfl
    have hfst := drawRows_fst c.ram c.regI (c.regsV x % 64) (by omega) n 0
      (c.regsV y % 32) c.Screen 0 res (by omega) hdraw
    intro p hne
    rw [hscr, hfst] at hne
    simp only [rowsSpec] at hne
    by_cases hmem : c.regsV y % 32 ≤ p / 64 ∧ p / 64 < c.regsV y % 32 + n ∧ p / 64 ≤ 31 ∧
        c.regsV x % 64 ≤ p % 64 ∧ p % 64 < c.regsV x % 64 + 8
    · omega
    · rw [if_neg hmem] at hne
      exact absurd rfl hne

/-- Claim C8, witness: the clipped draw of `c8wit` changes cell 1980
(row 30, column 60) and the theorem confirms that cell lies in the
clipped rectangle. -/
theorem c8_draw_clipping_witness :
    c8wit.regsV 0 % 64 ≤ 1980 % 64 ∧ 1980 % 64 < c8wit.regsV 0 % 64 + 8 ∧
    c8wit.regsV 1 % 32 ≤ 1980 / 64 ∧ 1980 / 64 < c8wit.regsV 1 % 32 + 3 ∧
    1980 / 64 ≤ 31 ∧ 1980 < 2048 :=
  c8_draw_clipping c8wit 0 0 1 3 (by decide) (by decide) (by decide) (by decide)
    (by decide) (by decide) c8end rfl 1980 (by decide)

/-- Claim C9: drawing the same sprite twice at the same position — same
sprite height `n`, same `I`, same RAM, same masked coordinates, no
intervening changes — returns the framebuffer to its state before the
first draw (the XOR draw is an involution). -/
theorem c9_draw_involution (ram : Nat → Nat) (regI vx vy n : Nat) (screen : Nat → Bool)
    (out1 out2 : (Nat → Bool) × Nat)
    (h1 : drawRows ram regI (vx % 64) n 0 (vy % 32) screen 0 = some out1)
    (h2 : drawRows ram regI (vx % 64) n 0 (vy % 32) out1.fst 0 = some out2) :
    out2.fst = screen := by
  have hpx : vx % 64 ≤ 63 := by omega
  have hpy : vy % 32 ≤ 31 := by omega
  have e1 := drawRows_fst ram regI (vx % 64) hpx n 0 (vy % 32) screen 0 out1 hpy h1
  have e2 := drawRows_fst ram regI (vx % 64) hpx n 0 (vy % 32) out1.fst 0 out2 hpy h2
  rw [e2, e1]
  funext p
  simp only [rowsSpec]
  by_cases hmem : vy % 32 ≤ p / 64 ∧ p / 64 < vy % 32 + n ∧ p / 64 ≤ 31 ∧
      vx % 64 ≤ p % 64 ∧ p % 64 < vx % 64 + 8
  · rw [if_pos hmem, if_pos hmem]
    cases screen p <;> simp
  · rw [if_neg hmem, if_neg hmem]

/-- Claim C9, witness: drawing the `0xFF` sprite at `(60, 30)` twice on a
blank screen restores the blank screen. -/
theorem c9_draw_involution_witness : c9out2.fst = blankScreen :=
  c9_draw_involution c9ram 0 60 30 3 blankScreen c9out1 c9out2 rfl rfl

/-- Claim C10: with `Vx ≥ 16`, both `Ex9E` and `ExA1` are guarded by the
`Vx < 0x10` test, so the 16-entry keypad is never indexed out of bounds
(no panic — `step` returns `some`) and neither opcode skips: `pc`
advances by exactly 2. -/
theorem c10_key_skip_guard (c : Chip8) (rand x lo : Nat) (hpc : c.pc + 1 < 4096)
    (hx : x < 16) (hh : c.ram c.pc = 224 + x) (hlo : lo = 0x9e ∨ lo = 0xa1)
    (hl : c.ram (c.pc + 1) = lo) (hvx : 16 ≤ c.regsV x) :
    Option.map Chip8.pc (step c rand) = some (c.pc + 2) := by
  rw [step_decode c rand (224 + x) lo hpc hh hl (by omega) (by omega)]
  have e1 : (224 + x) / 16 = 14 := by omega
  have e2 : (224 + x) % 16 = x := by omega
  rw [e1, e2]
  rcases hlo with h | h <;> subst h <;> norm_num [stepExec] <;>
    rw [if_neg (by rintro ⟨h1, h2⟩; omega)] <;>
    simp [finishStep, tickTimers]

/-- Claim C10, witness: the theorem on `E09E` with `V0 = 200`. -/
theorem c10_key_skip_guard_witness :
    Option.map Chip8.pc (step c10wit 0) = some (c10wit.pc + 2) :=
  c10_key_skip_guard c10wit 0 0 0x9e (by decide) (by decide) (by decide) (Or.inl rfl)
    (by decide) (by decide)

end GoChip8
